import Mathlib

/-!
Shallow embedding of `utils/toml2dot.py`: the hierarchical-table-to-graph model
builder.  TOML-like documents are nested string-keyed mappings (`Value`);
`tablesOf` embeds `Model.tables`, `is_arc` embeds `Model.is_arc`, `buildNodes`
embeds `Model.nodes`, `childrenNames` embeds `Model.children`, `subgraphsFuel` /
`subgraphs` embed `Model.subgraphs`, and `to_dot` / `to_cluster` embed the two
renderers.  Raising Python code is modelled with `Except`; the stderr
diagnostics of `Model.nodes` are collected in a list.
-/

/-- A TOML-like value: scalars, lists and nested tables (Python dicts are
modelled as ordered association lists, matching insertion order).  Floats are
not modelled: no table in any claim carries one. -/
inductive Value where
  | str : String → Value
  | int : Int → Value
  | bool : Bool → Value
  | list : List Value → Value
  | table : List (String × Value) → Value

/-- A table: one dict of the parsed document (`dict[str, ...]`). -/
abbrev Table := List (String × Value)

/-- Python `table[k]` / `table.get(k)` on a string-keyed dict. -/
def lookupVal (t : Table) (k : String) : Option Value :=
  (t.find? (fun p => p.1 == k)).map (fun p => p.2)

/-- Python `name.split(".")` (`str.split` on a one-character separator). -/
def splitDots (s : String) : List String :=
  (go s.data []).map (fun l => String.mk l.reverse)
where
  go : List Char → List Char → List (List Char)
    | [], acc => [acc]
    | c :: cs, acc => if c = '.' then acc :: go cs [] else go cs (c :: acc)

/-- Python `".".join(parts)`. -/
def joinDots : List String → String
  | [] => ""
  | [s] => s
  | s :: rest => s ++ "." ++ joinDots rest

/-- Python `"." in name`. -/
def hasDot (s : String) : Bool :=
  s.data.contains '.'

/-- Python `name.rpartition(".")`, reduced to the two components the source uses:
the text before the final dot (`""` when there is no dot) and the text after
it. -/
def rpartitionDot (name : String) : String × String :=
  let parts := splitDots name
  if parts.length ≤ 1 then ("", name)
  else (joinDots parts.dropLast, parts.getLastD name)

/-- Python `k.startswith(name)`: raw string-prefix test, not segment-aware. -/
def startsWithB (s pre : String) : Bool :=
  pre.data.isPrefixOf s.data

/-- Walk the parsed document one path segment at a time, as the loop in
`Model.tables` does with `data = data[k]`: a missing key raises `KeyError`,
indexing a non-mapping raises `TypeError`. -/
def walkPath : Value → List String → Except String Value
  | v, [] => .ok v
  | .table kvs, k :: rest =>
      match lookupVal kvs k with
      | some v => walkPath v rest
      | none => .error ("KeyError: " ++ k)
  | _, k :: _ => .error ("TypeError: " ++ k)

/-- Python `k in d` on a dict modelled as an association list. -/
def hasKeyA {α : Type} (l : List (String × α)) (k : String) : Bool :=
  l.any (fun p => p.1 == k)

/-- Python `rv[path] = data` on a dict: replacing an existing key keeps its
position, a new key is appended. -/
def insertReplace {α : Type} (l : List (String × α)) (k : String) (v : α) :
    List (String × α) :=
  if hasKeyA l k then
    l.map (fun p => if p.1 == k then (p.1, v) else p)
  else l ++ [(k, v)]

/-- Embeds `Model.tables`: resolve every dotted path discovered in the raw text to its
sub-mapping.  `paths` stands for `self.table_finder.findall(self.text)`; since
that regex scans the raw source text (comments and quoted string values
included), the discovered paths need not exist in the parsed document, in which
case the resolution loop raises. -/
def tablesOf (doc : Table) (paths : List String) : Except String (List (String × Value)) :=
  paths.foldlM
    (fun rv path => do
      let v ← walkPath (.table doc) (splitDots path)
      pure (insertReplace rv path v))
    []

/-- Embeds `Model.is_arc`: a table is an arc when its key set meets
`{"source", "target"}`. -/
def is_arc (t : Table) : Bool :=
  t.any (fun p => p.1 == "source" || p.1 == "target")

/-- The `RGBA` namedtuple; `a` defaults to 255. -/
structure RGBA where
  r : Nat
  g : Nat
  b : Nat
  a : Nat := 255

/-- The `Arc` namedtuple.  `target` holds the raw `table.get("target")` result
(`none` when the key is absent); `source` is never set by the builder and keeps
its default `None`. -/
structure Arc where
  label : Value
  node : Option String
  target : Option Value
  source : Option Value
  weight : Value
  color : RGBA
  fill : RGBA
  stroke : RGBA

/-- The `Node` dataclass.  `label` and `weight` keep the raw table values
(`__post_init__` replaces a falsy label by the name); `rank` is derived below. -/
structure Node where
  name : String
  label : Value
  weight : Value
  arcs : List Arc
  data : Table
  parent : Option String
  color : RGBA
  fill : RGBA
  stroke : RGBA

/-- Embeds `Node.rank`: `self.name.count(".")`. -/
def rank (n : Node) : Nat :=
  n.name.data.count '.'

/-- Python truthiness of a table value (used by `label or name` and
`not v.parent`). -/
def truthy : Value → Bool
  | .str s => !(s == "")
  | .int n => !(n == 0)
  | .bool b => b
  | .list l => !l.isEmpty
  | .table l => !l.isEmpty

/-- Decode a colour sub-table into `RGBA`, as `RGBA(**table[attr])` does.  A
malformed colour sub-table raises `TypeError` in the source; no claim exercises
one, and it is mapped to `none` here (the caller then keeps the default). -/
def rgbaOfValue : Value → Option RGBA
  | .table kvs =>
    match lookupVal kvs "r", lookupVal kvs "g", lookupVal kvs "b" with
    | some (.int r), some (.int g), some (.int b) =>
        match lookupVal kvs "a" with
        | some (.int a) => some ⟨r.toNat, g.toNat, b.toNat, a.toNat⟩
        | none => some ⟨r.toNat, g.toNat, b.toNat, 255⟩
        | some _ => none
    | _, _, _ => none
  | _ => none

/-- The colour kwargs of `Model.nodes`: `attr in table` picks the decoded
sub-table, otherwise the field default `RGBA(0, 0, 0)` stands. -/
def colorAttr (t : Table) (attr : String) : RGBA :=
  match lookupVal t attr with
  | some v => (rgbaOfValue v).getD ⟨0, 0, 0, 255⟩
  | none => ⟨0, 0, 0, 255⟩

/-- The `parent` keyword a table may pass into the dataclass (its value is
untyped in the source; only string values are meaningful and modelled). -/
def parentInit (t : Table) : Option String :=
  match lookupVal t "parent" with
  | some (.str s) => some s
  | _ => none

/-- The ancestor prefixes tried by the parent-resolution loop of `Model.nodes`:
`".".join(paths[:-gen])` for `gen` in `range(1, len(paths))` — longest first,
one trailing segment dropped at a time. -/
def ancestorPrefixes (name : String) : List String :=
  let paths := splitDots name
  (List.range' 1 (paths.length - 1)).map
    (fun gen => joinDots (paths.take (paths.length - gen)))

/-- The parent-resolution loop: every prefix found in `self.tables` overwrites
`node.parent`, so the last (shortest) match wins; without a dot the initial
value is kept. -/
def resolveParent (name : String) (tableNames : List String) (p0 : Option String) :
    Option String :=
  if hasDot name then
    (ancestorPrefixes name).foldl
      (fun acc pre => if tableNames.contains pre then some pre else acc) p0
  else p0

/-- Construct a `Node` from a node table, as `Model.nodes` does: recognized
attribute keys become kwargs (`label`, `weight`, `parent` and the colour
sub-tables; an `arcs` or `name` key — which would respectively inject a raw
list and raise `TypeError` — appears in no claim and is not modelled),
`node.data = table` stores the raw table, and the parent is resolved against
all table names. -/
def mkNode (name : String) (t : Table) (tableNames : List String) : Node :=
  let label :=
    match lookupVal t "label" with
    | some v => if truthy v then v else .str name
    | none => .str name
  { name := name
    label := label
    weight := (lookupVal t "weight").getD (.int 1)
    arcs := []
    data := t
    parent := resolveParent name tableNames (parentInit t)
    color := colorAttr t "color"
    fill := colorAttr t "fill"
    stroke := colorAttr t "stroke" }

/-- Construct an `Arc` from an arc table: the label defaults to the tail
segment of the table path, `node` is the path minus its tail (`or None`),
`target` is read from the table — and `source` is never read. -/
def mkArc (name : String) (t : Table) : Arc :=
  let pl := rpartitionDot name
  { label := (lookupVal t "label").getD (.str pl.2)
    node := if pl.1 == "" then none else some pl.1
    target := lookupVal t "target"
    source := none
    weight := (lookupVal t "weight").getD (.int 1)
    color := colorAttr t "color"
    fill := colorAttr t "fill"
    stroke := colorAttr t "stroke" }

/-- First pass of `Model.nodes`: one loop over `self.tables.items()` that files
arc tables into the `arcs` dict and builds a `Node` for every other table in
the `rv` dict. -/
def nodesPhase1 (tableNames : List String) (ts : List (String × Table)) :
    List (String × Node) × List (String × Table) :=
  ts.foldl
    (fun acc nt =>
      if is_arc nt.2 then (acc.1, insertReplace acc.2 nt.1 nt.2)
      else (insertReplace acc.1 nt.1 (mkNode nt.1 nt.2 tableNames), acc.2))
    ([], [])

/-- Python `rv[parent].arcs.append(arc)`. -/
def appendArc (rv : List (String × Node)) (k : String) (a : Arc) :
    List (String × Node) :=
  rv.map (fun p => if p.1 == k then (p.1, { p.2 with arcs := p.2.arcs ++ [a] }) else p)

/-- The diagnostic `print("No Node '", parent, "' for Arc '", name, "'.", sep="")`. -/
def missingParentDiag (parent nm : String) : String :=
  "No Node '" ++ parent ++ "' for Arc '" ++ nm ++ "'."

/-- Second pass of `Model.nodes`: attach each `Arc` to `rv[parent]`.  A missing
parent raises `KeyError`, caught and printed to stderr (collected in the error
list here); the `AttributeError` branch of the source (a parent entry that is
not Node-shaped) is unreachable because `rv` only ever holds Nodes. -/
def nodesPhase2 (rv0 : List (String × Node)) (arcTs : List (String × Table)) :
    List (String × Node) × List String :=
  arcTs.foldl
    (fun acc nt =>
      let parent := (rpartitionDot nt.1).1
      let arc := mkArc nt.1 nt.2
      if hasKeyA acc.1 parent then (appendArc acc.1 parent arc, acc.2)
      else (acc.1, acc.2 ++ [missingParentDiag parent nt.1]))
    (rv0, [])

/-- Embeds `Model.nodes`: the built node map together with the stderr diagnostics. -/
def buildNodes (ts : List (String × Table)) : List (String × Node) × List String :=
  let p := nodesPhase1 (ts.map (fun nt => nt.1)) ts
  nodesPhase2 p.1 p.2

/-- Python `self.nodes[k]` as an optional lookup. -/
def lookupNode (ns : List (String × Node)) (k : String) : Option Node :=
  (ns.find? (fun p => p.1 == k)).map (fun p => p.2)

/-- Embeds `Model.children`: every key of the node map that differs from, and starts
with, the given name. -/
def childrenNames (ns : List (String × Node)) (name : String) : List String :=
  (ns.map (fun p => p.1)).filter (fun k => (k != name) && startsWithB k name)

/-- Python `[self.nodes[c] for c in self.children(p.name)]`. -/
def childNodes (ns : List (String × Node)) (name : String) : List Node :=
  (childrenNames ns name).filterMap (lookupNode ns)

/-- Python `not v.parent`: a Node is a default root when its parent is `None` (or the
falsy empty string). -/
def isRoot (n : Node) : Bool :=
  match n.parent with
  | none => true
  | some s => s == ""

/-- The default `parents` of `Model.subgraphs`. -/
def rootsOf (ns : List (String × Node)) : List Node :=
  (ns.map (fun p => p.2)).filter isRoot

/-- Embeds `Model.subgraphs` with explicit fuel bounding the recursion depth: yield
each parent, then recurse into its child nodes and close with a `none`
sentinel when it has any.  `subgraphs_children_strict` below shows the fuel
`maxKeyLen + 1` used by `subgraphs` is never exhausted on maps whose keys are
the node names, which is how the source generator terminates. -/
def subgraphsFuel (ns : List (String × Node)) : Nat → List Node → List (Option Node)
  | 0, _ => []
  | fuel + 1, parents =>
      parents.flatMap (fun p =>
        let cs := childNodes ns p.name
        some p :: (if cs.isEmpty then [] else subgraphsFuel ns fuel cs ++ [none]))

/-- The longest key of the node map (0 when empty). -/
def maxKeyLen (ns : List (String × Node)) : Nat :=
  (ns.map (fun p => p.1.length)).foldr max 0

/-- Embeds `Model.subgraphs()` from the default roots. -/
def subgraphs (ns : List (String × Node)) : List (Option Node) :=
  subgraphsFuel ns (maxKeyLen ns + 1) (rootsOf ns)

/-- Python `str()` as interpolated for labels in f-strings.  Container reprs
are abbreviated: no claim renders a non-scalar label. -/
def pyStr : Value → String
  | .str s => s
  | .int n => toString n
  | .bool b => if b then "True" else "False"
  | .list _ => "[...]"
  | .table _ => "<table>"

/-- Python `f"{w:.02f}"` for the weights occurring in the claims (the default `1.0`
and integer table values render with two zero decimals).  A non-numeric weight
raises `ValueError` in the source; none occurs in any claim. -/
def fmtW : Value → String
  | .int n => toString n ++ ".00"
  | _ => "?"

/-- Python `f"{n:02x}"`: lowercase hex, zero-padded to at least two digits. -/
def hex02 (n : Nat) : String :=
  let s := Nat.toDigits 16 n
  String.mk (if s.length < 2 then '0' :: s else s)

/-- Python `"#{r:02x}{g:02x}{b:02x}{a:02x}"`. -/
def fmtRGBA4 (c : RGBA) : String :=
  "#" ++ hex02 c.r ++ hex02 c.g ++ hex02 c.b ++ hex02 c.a

/-- Python `"#{r:02x}{g:02x}{b:02x}"`. -/
def fmtRGB3 (c : RGBA) : String :=
  "#" ++ hex02 c.r ++ hex02 c.g ++ hex02 c.b

/-- The source uses `hash(node)` (CPython object-identity hash) as the
renderer-local vertex id: arbitrary but distinct per Node and stable within a
run, explicitly not a public contract.  Modelled as the node's position in the
node map, found by name. -/
def nodeId (ns : List (String × Node)) (n : Node) : Nat :=
  match ns.findIdx? (fun p => p.1 == n.name) with
  | some i => i
  | none => ns.length

/-- Python `node.name.lower().replace(".", "_")`. -/
def sanitizeName (s : String) : String :=
  String.mk (s.data.map (fun c => if c = '.' then '_' else c.toLower))

/-- Python `label = label or name` (an absent or empty label falls back to the
graph name). -/
def labelOr (label : Option String) (name : String) : String :=
  match label with
  | some s => if s == "" then name else s
  | none => name

/-- Python `self.nodes[arc.target]`: a dict lookup that raises `KeyError` when the
target value is not the name of a built Node — including `None` when the arc
table had no `target` key at all. -/
def resolveTarget (ns : List (String × Node)) (arc : Arc) : Except String Node :=
  match arc.target with
  | some (.str s) =>
    match lookupNode ns s with
    | some n => .ok n
    | none => .error ("KeyError: " ++ s)
  | _ => .error "KeyError: target is not a node name"

/-- Sequential effectful loop over a list (a Python `for` that may raise). -/
def mapMExcept {α β : Type} (g : α → Except String β) : List α → Except String (List β)
  | [] => .ok []
  | a :: l => do
    let b ← g a
    let bs ← mapMExcept g l
    pure (b :: bs)

/-- The leaf vertex statement of `Model.to_cluster` (alpha on `color` only). -/
def clusterVertexLine (ns : List (String × Node)) (node : Node) : String :=
  toString (nodeId ns node) ++ " [ label=\"" ++ pyStr node.label ++ "\", weight="
    ++ fmtW node.weight ++ " color=\"" ++ fmtRGBA4 node.stroke ++ "\" fontcolor=\""
    ++ fmtRGB3 node.color ++ "\" fillcolor=\"" ++ fmtRGB3 node.fill ++ "\" ]"

/-- The edge statement of `Model.to_cluster` (three-byte colours). -/
def clusterEdgeLine (ns : List (String × Node)) (node : Node) (arc : Arc) (tgt : Node)
    (arcStyle : String) : String :=
  toString (nodeId ns node) ++ " " ++ arcStyle ++ " " ++ toString (nodeId ns tgt)
    ++ " [ label=\"" ++ pyStr arc.label ++ "\", weight=" ++ fmtW arc.weight
    ++ " color=\"" ++ fmtRGB3 arc.stroke ++ "\" fontcolor=\"" ++ fmtRGB3 arc.color
    ++ "\" fillcolor=\"" ++ fmtRGB3 arc.fill ++ "\" ]"

/-- The vertex statement of `Model.to_dot` (four-byte colours). -/
def dotVertexLine (ns : List (String × Node)) (node : Node) : String :=
  toString (nodeId ns node) ++ " [ label=\"" ++ pyStr node.label ++ "\", weight="
    ++ fmtW node.weight ++ " color=\"" ++ fmtRGBA4 node.stroke ++ "\" fontcolor=\""
    ++ fmtRGBA4 node.color ++ "\" fillcolor=\"" ++ fmtRGBA4 node.fill ++ "\" ]"

/-- The same-generation sketch edge of `Model.to_dot`: literal `"..."` label,
weight and colours taken from the parent node. -/
def dotSketchLine (ns : List (String × Node)) (node : Node) (child : Node)
    (arcStyle : String) : String :=
  toString (nodeId ns node) ++ " " ++ arcStyle ++ " " ++ toString (nodeId ns child)
    ++ " [ label=\"...\", weight=" ++ fmtW node.weight
    ++ " color=\"" ++ fmtRGBA4 node.stroke ++ "\" fontcolor=\"" ++ fmtRGBA4 node.color
    ++ "\" fillcolor=\"" ++ fmtRGBA4 node.fill ++ "\" ]"

/-- The arc edge statement of `Model.to_dot` (four-byte colours). -/
def dotEdgeLine (ns : List (String × Node)) (node : Node) (arc : Arc) (tgt : Node)
    (arcStyle : String) : String :=
  toString (nodeId ns node) ++ " " ++ arcStyle ++ " " ++ toString (nodeId ns tgt)
    ++ " [ label=\"" ++ pyStr arc.label ++ "\", weight=" ++ fmtW arc.weight
    ++ " color=\"" ++ fmtRGBA4 arc.stroke ++ "\" fontcolor=\"" ++ fmtRGBA4 arc.color
    ++ "\" fillcolor=\"" ++ fmtRGBA4 arc.fill ++ "\" ]"

/-- The traversal part of `Model.to_cluster`: interior nodes open a named
subgraph block, leaves emit a vertex statement, `None` sentinels close the
innermost open block. -/
def clusterBody (ns : List (String × Node)) : List String :=
  (subgraphs ns).flatMap (fun o =>
    match o with
    | none => ["", "\x7d"]
    | some node =>
      if !(childrenNames ns node.name).isEmpty then
        ["", "subgraph cluster_" ++ sanitizeName node.name ++ " \x7b",
         "    label=\"" ++ pyStr node.label ++ "\"",
         "    weight=" ++ fmtW node.weight, ""]
      else [clusterVertexLine ns node])

/-- One arc edge statement of `Model.to_cluster`: the target lookup may
raise. -/
def clusterArcLine (ns : List (String × Node)) (arcStyle : String) (node : Node)
    (arc : Arc) : Except String String := do
  let tgt ← resolveTarget ns arc
  pure (clusterEdgeLine ns node arc tgt arcStyle)

/-- The edge statements one node contributes to `Model.to_cluster`. -/
def clusterNodeArcs (ns : List (String × Node)) (arcStyle : String)
    (p : String × Node) : Except String (List String) :=
  mapMExcept (clusterArcLine ns arcStyle p.2) p.2.arcs

/-- Embeds `Model.to_cluster`: header, subgraph traversal, then every arc of every
node as a global edge statement (the target lookup may raise). -/
def to_cluster (ns : List (String × Node)) (name : String) (label : Option String)
    (directed : Bool) (strict : Bool) : Except String (List String) := do
  let label := labelOr label name
  let arcStyle := if directed then "->" else "--"
  let header := (if strict then "strict " else "")
      ++ (if directed then "digraph" else "graph") ++ " " ++ name ++ " \x7b"
  let arcGroups ← mapMExcept (clusterNodeArcs ns arcStyle) ns
  pure ([header, "    label=\"" ++ label ++ "\""] ++ clusterBody ns ++ [""]
    ++ arcGroups.flatten ++ ["", "\x7d"])

/-- The minimum rank among a node's descendants, and the sketch edges to every
descendant at that rank (`ranks[0]` is only forced when a descendant exists). -/
def sketchLines (ns : List (String × Node)) (node : Node) (arcStyle : String) :
    List String :=
  match childNodes ns node.name with
  | [] => []
  | c0 :: rest =>
    let minRank := rest.foldl (fun m c => min m (rank c)) (rank c0)
    ((c0 :: rest).filter (fun c => rank c == minRank)).map
      (fun c => dotSketchLine ns node c arcStyle)

/-- One arc edge statement of `Model.to_dot`: the target lookup may raise. -/
def dotArcLine (ns : List (String × Node)) (arcStyle : String) (node : Node)
    (arc : Arc) : Except String String := do
  let tgt ← resolveTarget ns arc
  pure (dotEdgeLine ns node arc tgt arcStyle)

/-- The lines one node contributes to `Model.to_dot`: vertex statement, sketch
edges, arc edges (which may raise), blank separator. -/
def dotNodeGroup (ns : List (String × Node)) (arcStyle : String)
    (p : String × Node) : Except String (List String) := do
  let arcLines ← mapMExcept (dotArcLine ns arcStyle p.2) p.2.arcs
  pure ([dotVertexLine ns p.2] ++ sketchLines ns p.2 arcStyle ++ arcLines ++ [""])

/-- Embeds `Model.to_dot`: flat rendering — for every node, a vertex statement, the
same-generation sketch edges, then its arcs as edge statements (the target
lookup may raise), followed by a blank line. -/
def to_dot (ns : List (String × Node)) (name : String) (label : Option String)
    (directed : Bool) (strict : Bool) : Except String (List String) := do
  let label := labelOr label name
  let arcStyle := if directed then "->" else "--"
  let header := (if strict then "strict " else "")
      ++ (if directed then "digraph" else "graph") ++ " \"" ++ label ++ "\" \x7b"
  let groups ← mapMExcept (dotNodeGroup ns arcStyle) ns
  pure ([header, ""] ++ groups.flatten ++ ["", "\x7d"])

/-- The produced lines of a render that did not raise. -/
def linesOf (e : Except String (List String)) : List String :=
  e.toOption.getD []

/-! Section: Characterization of the build: helper definitions -/

/-- The node tables of a document, in source order. -/
def nodeTables (ts : List (String × Table)) : List (String × Table) :=
  ts.filter (fun p => !is_arc p.2)

/-- The arc tables of a document, in source order. -/
def arcTables (ts : List (String × Table)) : List (String × Table) :=
  ts.filter (fun p => is_arc p.2)

/-- The names of the node tables: the keys of the built node map. -/
def nodeNames (ts : List (String × Table)) : List String :=
  (nodeTables ts).map (fun p => p.1)

/-- The arc tables whose computed parent (path minus tail segment) is `k`. -/
def matchedArcTables (arcTs : List (String × Table)) (k : String) :
    List (String × Table) :=
  arcTs.filter (fun a => (rpartitionDot a.1).1 == k)

/-- The node-map entry the build produces for a node table, arcs attached. -/
def builtEntry (ts : List (String × Table)) (p : String × Table) : String × Node :=
  (p.1, { mkNode p.1 p.2 (ts.map (fun q => q.1)) with
          arcs := (matchedArcTables (arcTables ts) p.1).map (fun a => mkArc a.1 a.2) })

/-! Section: Key lemmas -/

lemma hasKeyA_iff {α : Type} (l : List (String × α)) (k : String) :
    hasKeyA l k = true ↔ k ∈ l.map (fun p => p.1) := by
  simp [hasKeyA, List.any_eq_true, List.mem_map]

lemma hasKeyA_eq_false_iff {α : Type} (l : List (String × α)) (k : String) :
    hasKeyA l k = false ↔ k ∉ l.map (fun p => p.1) := by
  rw [← hasKeyA_iff l k]
  cases h : hasKeyA l k <;> simp [h]

lemma hasKeyA_append {α : Type} (l₁ l₂ : List (String × α)) (k : String) :
    hasKeyA (l₁ ++ l₂) k = (hasKeyA l₁ k || hasKeyA l₂ k) := by
  simp [hasKeyA, List.any_append]

lemma hasKeyA_map_eq {α β : Type} (l : List (String × α)) (g : String × α → β)
    (k : String) :
    hasKeyA (l.map (fun p => (p.1, g p))) k = hasKeyA l k := by
  induction l with
  | nil => rfl
  | cons hd tl ih => simp [hasKeyA, List.any_cons] at ih ⊢; rw [ih]

lemma hasKeyA_appendArc (rv : List (String × Node)) (k : String) (a : Arc)
    (x : String) : hasKeyA (appendArc rv k a) x = hasKeyA rv x := by
  induction rv with
  | nil => rfl
  | cons hd tl ih =>
    simp only [hasKeyA, appendArc, List.map_cons, List.any_cons] at ih ⊢
    rw [ih]
    by_cases h : hd.1 == k <;> simp [h]

lemma insertReplace_of_no_key {α : Type} (l : List (String × α)) (k : String)
    (v : α) (h : hasKeyA l k = false) : insertReplace l k v = l ++ [(k, v)] := by
  simp [insertReplace, h]

lemma find?_key_nodup {α : Type} (l : List (String × α)) (k : String) (t : α)
    (hnd : (l.map (fun p => p.1)).Nodup) (hmem : (k, t) ∈ l) :
    l.find? (fun p => p.1 == k) = some (k, t) := by
  induction l with
  | nil => cases hmem
  | cons hd tl ih =>
    simp only [List.map_cons, List.nodup_cons] at hnd
    by_cases h : hd.1 == k
    · have hk : hd.1 = k := by simpa using h
      rcases List.mem_cons.mp hmem with heq | htl
      · subst heq
        simp [List.find?]
      · exact absurd (List.mem_map.mpr ⟨(k, t), htl, rfl⟩) (hk ▸ hnd.1)
    · have : (k, t) ∈ tl := by
        rcases List.mem_cons.mp hmem with heq | htl
        · subst heq; simp at h
        · exact htl
      rw [List.find?_cons_of_neg _ (by simpa using h)]
      exact ih hnd.2 this

lemma beq_symm_str (a b : String) : (a == b) = (b == a) := by
  by_cases h : a = b
  · subst h; rfl
  · have h1 : (a == b) = false := beq_eq_false_iff_ne.mpr h
    have h2 : (b == a) = false := beq_eq_false_iff_ne.mpr (fun e => h e.symm)
    rw [h1, h2]

lemma nodesPhase2_go (arcTs : List (String × Table)) :
    ∀ (rv : List (String × Node)) (errs : List String),
    arcTs.foldl
      (fun acc nt =>
        let parent := (rpartitionDot nt.1).1
        let arc := mkArc nt.1 nt.2
        if hasKeyA acc.1 parent then (appendArc acc.1 parent arc, acc.2)
        else (acc.1, acc.2 ++ [missingParentDiag parent nt.1]))
      (rv, errs) =
    (rv.map (fun p =>
        (p.1, { p.2 with
                arcs := p.2.arcs ++ (matchedArcTables arcTs p.1).map
                  (fun a => mkArc a.1 a.2) })),
     errs ++ (arcTs.filter (fun a => !hasKeyA rv (rpartitionDot a.1).1)).map
       (fun a => missingParentDiag (rpartitionDot a.1).1 a.1)) := by
  induction arcTs with
  | nil =>
    intro rv errs
    have hid : (fun (p : String × Node) =>
        (p.1, { p.2 with
                arcs := p.2.arcs ++ (matchedArcTables [] p.1).map
                  (fun a => mkArc a.1 a.2) })) = id := by
      funext p
      simp [matchedArcTables]
    simp [hid]
  | cons nt tl ih =>
    intro rv errs
    simp only [List.foldl_cons]
    by_cases hk : hasKeyA rv (rpartitionDot nt.1).1
    · rw [if_pos hk, ih]
      simp only [Prod.mk.injEq]
      constructor
      · simp only [appendArc, List.map_map]
        refine List.map_congr_left (fun p hp => ?_)
        by_cases hpk : p.1 == (rpartitionDot nt.1).1
        · have hsy : ((rpartitionDot nt.1).1 == p.1) = true := by
            rw [beq_symm_str]; exact hpk
          simp [Function.comp, hpk, matchedArcTables, List.filter_cons, hsy,
            List.append_assoc]
        · have hsy : ((rpartitionDot nt.1).1 == p.1) = false := by
            rw [beq_symm_str]; simpa using hpk
          simp [Function.comp, hpk, matchedArcTables, List.filter_cons, hsy]
      · have hpred : (fun (a : String × Table) =>
            !hasKeyA (appendArc rv (rpartitionDot nt.1).1 (mkArc nt.1 nt.2))
              (rpartitionDot a.1).1) =
            (fun a => !hasKeyA rv (rpartitionDot a.1).1) := by
          funext a
          rw [hasKeyA_appendArc]
        rw [hpred]
        simp [List.filter_cons, hk]
    · rw [if_neg hk, ih]
      rw [Bool.not_eq_true] at hk
      simp only [Prod.mk.injEq]
      constructor
      · refine List.map_congr_left (fun p hp => ?_)
        have hne : ((rpartitionDot nt.1).1 == p.1) = false := by
          have := (List.any_eq_false.mp hk) p hp
          rw [beq_symm_str]
          simpa using this
        simp [matchedArcTables, List.filter_cons, hne]
      · simp [List.filter_cons, hk, List.append_assoc, missingParentDiag]

lemma nodesPhase1_go (names : List String) :
    ∀ (ts : List (String × Table)) (acc1 : List (String × Node))
      (acc2 : List (String × Table)),
    (ts.map (fun p => p.1)).Nodup →
    (∀ k ∈ ts.map (fun p => p.1), hasKeyA acc1 k = false ∧ hasKeyA acc2 k = false) →
    ts.foldl
      (fun acc nt =>
        if is_arc nt.2 then (acc.1, insertReplace acc.2 nt.1 nt.2)
        else (insertReplace acc.1 nt.1 (mkNode nt.1 nt.2 names), acc.2))
      (acc1, acc2) =
    (acc1 ++ (ts.filter (fun p => !is_arc p.2)).map (fun p => (p.1, mkNode p.1 p.2 names)),
     acc2 ++ ts.filter (fun p => is_arc p.2)) := by
  intro ts
  induction ts with
  | nil =>
    intro acc1 acc2 _ _
    simp
  | cons nt tl ih =>
    intro acc1 acc2 hnd hacc
    simp only [List.map_cons, List.nodup_cons] at hnd
    have hhd := hacc nt.1 (by simp)
    have htl : ∀ k ∈ tl.map (fun p => p.1),
        hasKeyA acc1 k = false ∧ hasKeyA acc2 k = false :=
      fun k hk => hacc k (by simp [hk])
    have hne : ∀ k ∈ tl.map (fun p => p.1), (nt.1 == k) = false := by
      intro k hk
      exact beq_eq_false_iff_ne.mpr (fun e => hnd.1 (e ▸ hk))
    simp only [List.foldl_cons]
    by_cases ha : is_arc nt.2
    · rw [if_pos ha, insertReplace_of_no_key _ _ _ hhd.2]
      rw [ih acc1 (acc2 ++ [(nt.1, nt.2)]) hnd.2 ?side]
      case side =>
        intro k hk
        refine ⟨(htl k hk).1, ?_⟩
        rw [hasKeyA_append, (htl k hk).2]
        simp [hasKeyA, hne k hk]
      simp [List.filter_cons, ha, List.append_assoc]
    · rw [if_neg ha, insertReplace_of_no_key _ _ _ hhd.1]
      rw [ih (acc1 ++ [(nt.1, mkNode nt.1 nt.2 names)]) acc2 hnd.2 ?side]
      case side =>
        intro k hk
        refine ⟨?_, (htl k hk).2⟩
        rw [hasKeyA_append, (htl k hk).1]
        simp [hasKeyA, hne k hk]
      simp [List.filter_cons, ha, List.append_assoc]

lemma nodesPhase1_eq (names : List String) (ts : List (String × Table))
    (hnd : (ts.map (fun p => p.1)).Nodup) :
    nodesPhase1 names ts =
      ((nodeTables ts).map (fun p => (p.1, mkNode p.1 p.2 names)), arcTables ts) := by
  have h := nodesPhase1_go names ts [] [] hnd (fun k _ => ⟨rfl, rfl⟩)
  simpa [nodesPhase1, nodeTables, arcTables] using h

/-- The shape of `Model.nodes` on a document with unique table names (as the
dict of `Model.tables` guarantees): one entry per node table carrying its
matching arcs, and one diagnostic per arc table whose parent is no node name. -/
lemma buildNodes_eq (ts : List (String × Table))
    (hnd : (ts.map (fun p => p.1)).Nodup) :
    buildNodes ts =
      ((nodeTables ts).map (builtEntry ts),
       ((arcTables ts).filter
          (fun a => !hasKeyA (nodeTables ts) (rpartitionDot a.1).1)).map
         (fun a => missingParentDiag (rpartitionDot a.1).1 a.1)) := by
  unfold buildNodes nodesPhase2
  rw [nodesPhase1_eq (ts.map (fun nt => nt.1)) ts hnd]
  rw [nodesPhase2_go]
  simp only [List.map_map, List.nil_append, Prod.mk.injEq]
  constructor
  · refine List.map_congr_left (fun p hp => ?_)
    simp [Function.comp, builtEntry, mkNode]
  · have hpred : (fun (a : String × Table) =>
        !hasKeyA ((nodeTables ts).map
          (fun p => (p.1, mkNode p.1 p.2 (ts.map (fun nt => nt.1)))))
          (rpartitionDot a.1).1) =
        (fun a => !hasKeyA (nodeTables ts) (rpartitionDot a.1).1) := by
      funext a
      rw [hasKeyA_map_eq]
    rw [hpred]

/-- The keys of the built node map are exactly the node-table names, in order. -/
lemma buildNodes_keys (ts : List (String × Table))
    (hnd : (ts.map (fun p => p.1)).Nodup) :
    (buildNodes ts).1.map (fun p => p.1) = nodeNames ts := by
  rw [buildNodes_eq ts hnd]
  simp [List.map_map, nodeNames, builtEntry, Function.comp]

lemma nodeTables_keys_nodup (ts : List (String × Table))
    (hnd : (ts.map (fun p => p.1)).Nodup) :
    ((nodeTables ts).map (fun p => p.1)).Nodup :=
  List.Nodup.sublist (List.Sublist.map _ (List.filter_sublist ts)) hnd

/-- Looking up a node table's name in the built map yields its Node: attributes
from `mkNode`, arcs from the matching arc tables. -/
lemma lookupNode_built (ts : List (String × Table))
    (hnd : (ts.map (fun p => p.1)).Nodup) (k : String) (t : Table)
    (hmem : (k, t) ∈ ts) (hn : is_arc t = false) :
    lookupNode (buildNodes ts).1 k =
      some { mkNode k t (ts.map (fun q => q.1)) with
             arcs := (matchedArcTables (arcTables ts) k).map
               (fun a => mkArc a.1 a.2) } := by
  rw [buildNodes_eq ts hnd]
  unfold lookupNode
  have hfm : List.find? (fun p => p.1 == k) ((nodeTables ts).map (builtEntry ts)) =
      Option.map (builtEntry ts)
        (List.find? ((fun (p : String × Node) => p.1 == k) ∘ builtEntry ts)
          (nodeTables ts)) :=
    List.find?_map _ _
  have hpp : ((fun (p : String × Node) => p.1 == k) ∘ builtEntry ts) =
      (fun (p : String × Table) => p.1 == k) := by
    funext p
    rfl
  rw [hfm, hpp, find?_key_nodup (nodeTables ts) k t (nodeTables_keys_nodup ts hnd)
    (List.mem_filter.mpr ⟨hmem, by simp [hn]⟩)]
  rfl

/-- The parent field of a built node is the resolved parent of its table. -/
lemma built_parent (ts : List (String × Table))
    (hnd : (ts.map (fun p => p.1)).Nodup) (k : String) (t : Table)
    (hmem : (k, t) ∈ ts) (hn : is_arc t = false) :
    (lookupNode (buildNodes ts).1 k).map (fun n => n.parent) =
      some (resolveParent k (ts.map (fun q => q.1)) (parentInit t)) := by
  rw [lookupNode_built ts hnd k t hmem hn]
  rfl

lemma foldl_prefixMatch_mem (names : List String) :
    ∀ (l : List String) (acc : Option String),
    (∀ x, acc = some x → x ∈ names) →
    ∀ s, l.foldl (fun acc pre => if names.contains pre then some pre else acc) acc =
        some s →
    s ∈ names := by
  intro l
  induction l with
  | nil =>
    intro acc hacc s h
    exact hacc s h
  | cons hd tl ih =>
    intro acc hacc s h
    simp only [List.foldl_cons] at h
    by_cases hc : names.contains hd = true
    · rw [if_pos hc] at h
      refine ih (some hd) ?_ s h
      intro x hx
      cases hx
      simpa using hc
    · rw [if_neg hc] at h
      exact ih acc hacc s h

/-- A parent produced by ancestor resolution alone is a declared table name. -/
lemma resolveParent_mem_of_none (name : String) (names : List String) (s : String)
    (h : resolveParent name names none = some s) : s ∈ names := by
  unfold resolveParent at h
  by_cases hd : hasDot name = true
  · rw [if_pos hd] at h
    exact foldl_prefixMatch_mem names (ancestorPrefixes name) none (by intro x hx; cases hx) s h
  · rw [if_neg hd] at h
    cases h

lemma resolveParent_ABC (names : List String) (p0 : Option String)
    (hA : "A" ∈ names) : resolveParent "A.B.C" names p0 = some "A" := by
  have hdot : hasDot "A.B.C" = true := by decide
  have hpre : ancestorPrefixes "A.B.C" = ["A.B", "A"] := by decide
  have hc : names.contains "A" = true := by simp [hA]
  simp [resolveParent, hdot, hpre, List.foldl_cons, List.foldl_nil, hc, hA]

lemma resolveParent_AB (names : List String) (p0 : Option String)
    (hA : "A" ∈ names) : resolveParent "A.B" names p0 = some "A" := by
  have hdot : hasDot "A.B" = true := by decide
  have hpre : ancestorPrefixes "A.B" = ["A"] := by decide
  have hc : names.contains "A" = true := by simp [hA]
  simp [resolveParent, hdot, hpre, List.foldl_cons, List.foldl_nil, hc, hA]

lemma resolveParent_CBC (names : List String) (p0 : Option String)
    (hC : "C" ∈ names) (hCB : "C.B" ∉ names) :
    resolveParent "C.B.C" names p0 = some "C" := by
  have hdot : hasDot "C.B.C" = true := by decide
  have hpre : ancestorPrefixes "C.B.C" = ["C.B", "C"] := by decide
  have hc1 : names.contains "C.B" = false := by simp [hCB]
  have hc2 : names.contains "C" = true := by simp [hC]
  simp [resolveParent, hdot, hpre, List.foldl_cons, List.foldl_nil, hc1, hc2, hC, hCB]

lemma resolveParent_nodot (name : String) (names : List String) (p0 : Option String)
    (h : hasDot name = false) : resolveParent name names p0 = p0 := by
  simp [resolveParent, h]

/-! Section: Example documents -/

/-- A plain node-table body. -/
def tagT : Table := [("tag", Value.int 1)]

/-- Tables `A`, `A.B`, `A.B.C` — a fully declared chain. -/
def exChain : List (String × Table) :=
  [("A", tagT), ("A.B", tagT), ("A.B.C", tagT)]

/-- Tables `A`, `C.B.C`, `C`, `A.B.C` — the gap document of the spec. -/
def exGap : List (String × Table) :=
  [("A", tagT), ("C.B.C", tagT), ("C", tagT), ("A.B.C", tagT)]

/-- An arc table `A.b` that is a declared ancestor prefix of node table
`A.b.C`. -/
def exDangling : List (String × Table) :=
  [("A.b", [("target", Value.str "X")]), ("A.b.C", tagT)]

/-! Section: Claims C1, C3, C6: parent resolution -/

/-- C1 counterexample: on the fully declared chain `A`, `A.B`, `A.B.C` the
built parent of `A.B.C` is `"A"` — the shortest declared ancestor prefix —
not `"A.B"` as the claim states: the resolution loop has no break, so the last
(shortest) match overwrites the earlier (longest) one. -/
theorem parent_picks_shortest_counterexample :
    (lookupNode (buildNodes exChain).1 "A.B.C").map (fun n => n.parent) =
      some (some "A") ∧
    (lookupNode (buildNodes exChain).1 "A.B.C").map (fun n => n.parent) ≠
      some (some "A.B") := by
  constructor
  · rfl
  · decide

/-- C1 (amended): parent resolution picks the *shortest* declared ancestor
prefix — the ancestor walk runs longest to shortest and every match overwrites
the previous one, so the last (shortest) declared prefix wins.  For every
document whose declared tables include node tables `A`, `A.B` and `A.B.C`
(with no explicit `parent` key on `A`): `nodes["A.B.C"].parent == "A"`,
`nodes["A.B"].parent == "A"` and `nodes["A"].parent is None`. -/
theorem parent_picks_shortest (ts : List (String × Table))
    (hnd : (ts.map (fun p => p.1)).Nodup) (tA tAB tABC : Table)
    (hA : ("A", tA) ∈ ts) (hAB : ("A.B", tAB) ∈ ts) (hABC : ("A.B.C", tABC) ∈ ts)
    (haA : is_arc tA = false) (haAB : is_arc tAB = false)
    (haABC : is_arc tABC = false) (hpi : parentInit tA = none) :
    (lookupNode (buildNodes ts).1 "A.B.C").map (fun n => n.parent) =
      some (some "A") ∧
    (lookupNode (buildNodes ts).1 "A.B").map (fun n => n.parent) =
      some (some "A") ∧
    (lookupNode (buildNodes ts).1 "A").map (fun n => n.parent) = some none := by
  have hnameA : "A" ∈ ts.map (fun q => q.1) :=
    List.mem_map.mpr ⟨("A", tA), hA, rfl⟩
  refine ⟨?_, ?_, ?_⟩
  · rw [built_parent ts hnd _ _ hABC haABC, resolveParent_ABC _ _ hnameA]
  · rw [built_parent ts hnd _ _ hAB haAB, resolveParent_AB _ _ hnameA]
  · rw [built_parent ts hnd _ _ hA haA,
      resolveParent_nodot "A" _ _ (by decide), hpi]

theorem parent_picks_shortest_witness :
    (lookupNode (buildNodes exChain).1 "A.B.C").map (fun n => n.parent) =
      some (some "A") ∧
    (lookupNode (buildNodes exChain).1 "A.B").map (fun n => n.parent) =
      some (some "A") ∧
    (lookupNode (buildNodes exChain).1 "A").map (fun n => n.parent) = some none :=
  parent_picks_shortest exChain (by decide) tagT tagT tagT
    (List.Mem.head _) (List.Mem.tail _ (List.Mem.head _))
    (List.Mem.tail _ (List.Mem.tail _ (List.Mem.head _)))
    (by decide) (by decide) (by decide) (by decide)

/-- C6: gap-tolerant parent resolution — for every document with declared
tables `A`, `C.B.C`, `C`, `A.B.C` and `C.B` never declared, where `C.B.C` is a
node table, `nodes["C.B.C"].parent == "C"`: the undeclared prefix `C.B` is
skipped and the node attaches to its declared ancestor `C`. -/
theorem parent_gap_tolerant (ts : List (String × Table))
    (hnd : (ts.map (fun p => p.1)).Nodup) (t : Table)
    (hmem : ("C.B.C", t) ∈ ts) (ht : is_arc t = false)
    (hC : "C" ∈ ts.map (fun q => q.1)) (hCB : "C.B" ∉ ts.map (fun q => q.1))
    (hA : "A" ∈ ts.map (fun q => q.1)) (hABC : "A.B.C" ∈ ts.map (fun q => q.1)) :
    (lookupNode (buildNodes ts).1 "C.B.C").map (fun n => n.parent) =
      some (some "C") := by
  rw [built_parent ts hnd _ _ hmem ht, resolveParent_CBC _ _ hC hCB]

theorem parent_gap_tolerant_witness :
    (lookupNode (buildNodes exGap).1 "C.B.C").map (fun n => n.parent) =
      some (some "C") :=
  parent_gap_tolerant exGap (by decide) tagT
    (List.Mem.tail _ (List.Mem.head _)) (by decide)
    (by decide) (by decide) (by decide) (by decide)

/-- C3 counterexample: with arc table `A.b` (it has a `target` key) and node
table `A.b.C`, the built node `A.b.C` gets parent `"A.b"` — the name of a
declared *arc* table — while the node map holds no Node named `A.b`: the
parent reference dangles. -/
theorem parent_dangling_counterexample :
    (lookupNode (buildNodes exDangling).1 "A.b.C").map (fun n => n.parent) =
      some (some "A.b") ∧
    lookupNode (buildNodes exDangling).1 "A.b" = none := by
  constructor
  · rfl
  · rfl

/-- C3 (amended): when no table carries an explicit `parent` key, a built
Node's `parent`, if present, is the name of a *declared table* — but the
ancestor search accepts any table name, arc tables included, so the parent may
be absent from the built node map (see the counterexample). -/
theorem parent_names_declared_table (ts : List (String × Table))
    (hnd : (ts.map (fun p => p.1)).Nodup)
    (hpi : ∀ p ∈ ts, parentInit p.2 = none) :
    ∀ k n, (k, n) ∈ (buildNodes ts).1 → ∀ s, n.parent = some s →
      s ∈ ts.map (fun q => q.1) := by
  intro k n hmem s hs
  rw [buildNodes_eq ts hnd] at hmem
  rcases List.mem_map.mp hmem with ⟨p, hp, heq⟩
  have hn : n = (builtEntry ts p).2 := by
    rw [heq]
  have hpar : n.parent = resolveParent p.1 (ts.map (fun q => q.1)) (parentInit p.2) := by
    rw [hn]
    rfl
  rw [hpar, hpi p (List.mem_of_mem_filter hp)] at hs
  exact resolveParent_mem_of_none p.1 _ s hs

/-- The built Node `C.B.C` of the gap document, whose parent is `some "C"`. -/
def nodeCBC : Node :=
  (lookupNode (buildNodes exGap).1 "C.B.C").getD (mkNode "C.B.C" [] [])

theorem parent_names_declared_table_witness :
    "C" ∈ exGap.map (fun q => q.1) :=
  parent_names_declared_table exGap (by decide) (by decide)
    "C.B.C" nodeCBC (List.Mem.tail _ (List.Mem.head _)) "C" rfl

/-! Section: Claim C4: missing-parent arcs degrade by omission -/

/-- The document of the spec's diagnostic path: arc `Z.e` with no table `Z`. -/
def exMiss : List (String × Table) :=
  [("A", tagT), ("Z.e", [("target", Value.str "A")])]

/-- C4: for every document containing an arc table whose computed parent (the
path minus its tail segment) is not a node-table name, the build emits the
diagnostic `No Node '<parent>' for Arc '<name>'.` to the error channel, every
built node's arcs come only from arc tables whose parent is that node's own
key — so the offending arc is attached nowhere — and the node map still holds
exactly the node-table names.  The build is a total function: it never
raises. -/
theorem arc_missing_parent_dropped (ts : List (String × Table))
    (hnd : (ts.map (fun p => p.1)).Nodup) (nm : String) (t : Table)
    (hmem : (nm, t) ∈ ts) (harc : is_arc t = true)
    (hpar : (rpartitionDot nm).1 ∉ nodeNames ts) :
    missingParentDiag (rpartitionDot nm).1 nm ∈ (buildNodes ts).2 ∧
    (∀ k n, (k, n) ∈ (buildNodes ts).1 →
      n.arcs = (matchedArcTables (arcTables ts) k).map (fun a => mkArc a.1 a.2) ∧
      (nm, t) ∉ matchedArcTables (arcTables ts) k) ∧
    (buildNodes ts).1.map (fun p => p.1) = nodeNames ts := by
  refine ⟨?_, ?_, buildNodes_keys ts hnd⟩
  · rw [buildNodes_eq ts hnd]
    refine List.mem_map.mpr ⟨(nm, t), ?_, rfl⟩
    refine List.mem_filter.mpr ⟨List.mem_filter.mpr ⟨hmem, harc⟩, ?_⟩
    have h0 : hasKeyA (nodeTables ts) (rpartitionDot nm).1 = false :=
      (hasKeyA_eq_false_iff _ _).mpr hpar
    simp [h0]
  · intro k n hkn
    rw [buildNodes_eq ts hnd] at hkn
    rcases List.mem_map.mp hkn with ⟨p, hp, heq⟩
    have h1 : p.1 = k := congrArg Prod.fst heq
    have h2 : (builtEntry ts p).2 = n := congrArg Prod.snd heq
    constructor
    · rw [← h2, ← h1]
      rfl
    · intro hcon
      have hcnd := (List.mem_filter.mp hcon).2
      have hpk : (rpartitionDot nm).1 = k := by simpa using hcnd
      apply hpar
      rw [hpk, ← h1]
      exact List.mem_map.mpr ⟨p, hp, rfl⟩

theorem arc_missing_parent_dropped_witness :
    missingParentDiag (rpartitionDot "Z.e").1 "Z.e" ∈ (buildNodes exMiss).2 ∧
    (∀ k n, (k, n) ∈ (buildNodes exMiss).1 →
      n.arcs = (matchedArcTables (arcTables exMiss) k).map (fun a => mkArc a.1 a.2) ∧
      ("Z.e", [("target", Value.str "A")]) ∉ matchedArcTables (arcTables exMiss) k) ∧
    (buildNodes exMiss).1.map (fun p => p.1) = nodeNames exMiss :=
  arc_missing_parent_dropped exMiss (by decide) "Z.e" [("target", Value.str "A")]
    (List.Mem.tail _ (List.Mem.head _)) (by decide) (by decide)

/-! Section: Claim C2: the table index can raise -/

/-- A parsed document with a single table `A`. -/
def exDocA : Table := [("A", Value.table tagT)]

/-- C2 counterexample: a discovered path (`[B]` can appear in a comment or in
a quoted string value of the raw text) whose segment is absent from the parsed
mapping makes the resolution loop raise `KeyError`, rather than silently
omitting the path. -/
theorem tables_raises_counterexample :
    tablesOf exDocA ["B"] = Except.error "KeyError: B" := by
  rfl

/-- The keys of a Python dict built by repeated assignment: source order of
first appearance. -/
def firstOccur (paths : List String) : List String :=
  paths.foldl (fun acc p => if acc.contains p then acc else acc ++ [p]) []

lemma hasKeyA_eq_contains {α : Type} (l : List (String × α)) (k : String) :
    hasKeyA l k = (l.map (fun p => p.1)).contains k := by
  by_cases h : k ∈ l.map (fun p => p.1)
  · rw [(hasKeyA_iff _ _).mpr h]
    symm
    simp [h]
  · rw [(hasKeyA_eq_false_iff _ _).mpr h]
    symm
    simp [h]

lemma insertReplace_keys {α : Type} (l : List (String × α)) (k : String) (v : α) :
    (insertReplace l k v).map (fun p => p.1) =
      if (l.map (fun p => p.1)).contains k then l.map (fun p => p.1)
      else l.map (fun p => p.1) ++ [k] := by
  rw [insertReplace, hasKeyA_eq_contains]
  by_cases h : (l.map (fun p => p.1)).contains k
  · rw [if_pos h, if_pos h, List.map_map]
    refine List.map_congr_left (fun p hp => ?_)
    by_cases hk : p.1 == k <;> simp [Function.comp, hk]
  · rw [if_neg h, if_neg h, List.map_append]
    rfl

lemma tablesOf_go (doc : Table) :
    ∀ (paths : List String) (rv : List (String × Value)),
    (∀ p ∈ paths, (walkPath (.table doc) (splitDots p)).isOk = true) →
    ∃ rv',
      paths.foldlM
        (fun rv path => do
          let v ← walkPath (.table doc) (splitDots path)
          pure (insertReplace rv path v)) rv = .ok rv' ∧
      rv'.map (fun p => p.1) =
        paths.foldl (fun acc p => if acc.contains p then acc else acc ++ [p])
          (rv.map (fun p => p.1)) := by
  intro paths
  induction paths with
  | nil =>
    intro rv _
    exact ⟨rv, rfl, rfl⟩
  | cons hd tl ih =>
    intro rv h
    have hhd := h hd (by simp)
    obtain ⟨v, hv⟩ : ∃ v, walkPath (.table doc) (splitDots hd) = .ok v := by
      cases hw : walkPath (.table doc) (splitDots hd) with
      | ok v => exact ⟨v, rfl⟩
      | error e => rw [hw] at hhd; cases hhd
    obtain ⟨rv', hok, hkeys⟩ := ih (insertReplace rv hd v) (fun p hp => h p (by simp [hp]))
    refine ⟨rv', ?_, ?_⟩
    · simp only [List.foldlM_cons, hv]
      simpa [Bind.bind, Except.bind] using hok
    · rw [hkeys, insertReplace_keys]
      simp only [List.foldl_cons]
    
/-- C2 (amended): the table index *raises* (`KeyError`, or `TypeError` on a
non-mapping) on the first discovered path with an unresolvable segment — the
loop has no handler; when every discovered path resolves, no exception occurs
and the resulting keys are all discovered paths in source order of first
appearance. -/
theorem tables_resolvable_ok (doc : Table) (paths : List String)
    (h : ∀ p ∈ paths, (walkPath (.table doc) (splitDots p)).isOk = true) :
    (tablesOf doc paths).isOk = true ∧
    ((tablesOf doc paths).toOption.getD []).map (fun p => p.1) = firstOccur paths := by
  obtain ⟨rv', hok, hkeys⟩ := tablesOf_go doc paths [] h
  unfold tablesOf
  rw [hok]
  exact ⟨rfl, hkeys⟩

theorem tables_resolvable_ok_witness :
    (tablesOf exDocA ["A", "A", "A.tag"]).isOk = true ∧
    ((tablesOf exDocA ["A", "A", "A.tag"]).toOption.getD []).map (fun p => p.1) =
      firstOccur ["A", "A", "A.tag"] :=
  tables_resolvable_ok exDocA ["A", "A", "A.tag"] (by decide)

/-! Section: Claim C7: classifier/construction asymmetry -/

/-- C7: `is_arc` is true exactly when the key set meets `{"source", "target"}`,
yet `Arc` construction reads only `target`: the built Arc's `source` is always
`None`, whatever the table's `source` value. -/
theorem classifier_asymmetry (t : Table) (nm : String) :
    (is_arc t = true ↔
      ("source" ∈ t.map (fun p => p.1) ∨ "target" ∈ t.map (fun p => p.1))) ∧
    (mkArc nm t).source = none ∧
    (mkArc nm t).target = lookupVal t "target" := by
  refine ⟨?_, rfl, rfl⟩
  simp only [is_arc, List.any_eq_true, Bool.or_eq_true, beq_iff_eq, List.mem_map]
  constructor
  · rintro ⟨p, hp, h | h⟩
    · exact Or.inl ⟨p, hp, h⟩
    · exact Or.inr ⟨p, hp, h⟩
  · rintro (⟨p, hp, h⟩ | ⟨p, hp, h⟩)
    · exact ⟨p, hp, Or.inl h⟩
    · exact ⟨p, hp, Or.inr h⟩

/-! Section: Claim C8: arc attachment and label defaulting -/

lemma is_arc_of_target (t : Table) (v : Value)
    (htgt : lookupVal t "target" = some v) : is_arc t = true := by
  unfold lookupVal at htgt
  cases hf : t.find? (fun p => p.1 == "target") with
  | none => rw [hf] at htgt; cases htgt
  | some q =>
    have hq := List.find?_some hf
    have hqm := List.mem_of_find?_eq_some hf
    exact List.any_eq_true.mpr ⟨q, hqm, by rw [hq]; simp⟩

/-- C8: a document with node tables `A.B` and `C` and an arc table `A.B.c`
whose `target` is `"C"` and which sets no `label` key: after build,
`nodes["A.B"].arcs` has exactly one Arc, its `target` is `"C"`, and its
`label` is the tail segment `"c"` of the arc's own table path. -/
theorem arc_attachment_label_default (tAB tC tArc : Table)
    (hAB : is_arc tAB = false) (hC : is_arc tC = false)
    (htgt : lookupVal tArc "target" = some (Value.str "C"))
    (hlbl : lookupVal tArc "label" = none) :
    (lookupNode (buildNodes [("A.B", tAB), ("A.B.c", tArc), ("C", tC)]).1 "A.B").map
      (fun n => (n.arcs.length, n.arcs.map (fun a => (a.target, a.label)))) =
      some (1, [(some (Value.str "C"), Value.str "c")]) := by
  have harc : is_arc tArc = true := is_arc_of_target tArc _ htgt
  have hnd : (([("A.B", tAB), ("A.B.c", tArc), ("C", tC)]).map
      (fun p => p.1)).Nodup := by
    simp only [List.map_cons, List.map_nil]
    decide
  rw [lookupNode_built _ hnd "A.B" tAB (List.Mem.head _) hAB]
  have harct : arcTables [("A.B", tAB), ("A.B.c", tArc), ("C", tC)] =
      [("A.B.c", tArc)] := by
    simp [arcTables, List.filter_cons, hAB, hC, harc]
  have hrp : ((rpartitionDot "A.B.c").1 == "A.B") = true := by decide
  have hmatch : matchedArcTables [("A.B.c", tArc)] "A.B" = [("A.B.c", tArc)] := by
    simp [matchedArcTables, List.filter_cons, hrp]
  rw [harct, hmatch]
  have hrp2 : rpartitionDot "A.B.c" = ("A.B", "c") := by decide
  simp [mkArc, htgt, hlbl, hrp2]

theorem arc_attachment_label_default_witness :
    (lookupNode (buildNodes
        [("A.B", tagT), ("A.B.c", [("target", Value.str "C")]), ("C", tagT)]).1
      "A.B").map
      (fun n => (n.arcs.length, n.arcs.map (fun a => (a.target, a.label)))) =
      some (1, [(some (Value.str "C"), Value.str "c")]) :=
  arc_attachment_label_default tagT tagT [("target", Value.str "C")]
    (by decide) (by decide) rfl rfl

/-! Section: Claim C5: missing targets raise at render time -/

lemma mapMExcept_error {α β : Type} (g : α → Except String β) :
    ∀ (l : List α) (a : α), a ∈ l → (∃ e, g a = .error e) →
    ∃ e, mapMExcept g l = .error e := by
  intro l
  induction l with
  | nil =>
    intro a ha _
    cases ha
  | cons hd tl ih =>
    intro a ha hge
    cases hg : g hd with
    | error e0 => exact ⟨e0, by simp [mapMExcept, hg, Bind.bind, Except.bind]⟩
    | ok b =>
      have hat : a ∈ tl := by
        rcases List.mem_cons.mp ha with h | h
        · subst h
          rcases hge with ⟨e, he⟩
          rw [hg] at he
          cases he
        · exact h
      obtain ⟨e1, he1⟩ := ih a hat hge
      exact ⟨e1, by simp [mapMExcept, hg, he1, Bind.bind, Except.bind]⟩

lemma dotArcLine_error (ns : List (String × Node)) (st : String) (node : Node)
    (arc : Arc) (ht : ∃ e, resolveTarget ns arc = .error e) :
    ∃ e, dotArcLine ns st node arc = .error e := by
  obtain ⟨e, he⟩ := ht
  exact ⟨e, by simp [dotArcLine, he, Bind.bind, Except.bind]⟩

lemma clusterArcLine_error (ns : List (String × Node)) (st : String) (node : Node)
    (arc : Arc) (ht : ∃ e, resolveTarget ns arc = .error e) :
    ∃ e, clusterArcLine ns st node arc = .error e := by
  obtain ⟨e, he⟩ := ht
  exact ⟨e, by simp [clusterArcLine, he, Bind.bind, Except.bind]⟩

/-- C5: missing-target failure is deferred to render time and raises — the
build is a total function (it always returns a node map), but if any built
node holds an Arc whose target does not resolve to a built Node, both the flat
and the cluster renderer raise the lookup failure when emitting that Arc's
edge statement. -/
theorem render_missing_target_raises (ns : List (String × Node)) (nm : String)
    (lb : Option String) (directed strict : Bool) (k : String) (n : Node)
    (arc : Arc) (hmem : (k, n) ∈ ns) (ha : arc ∈ n.arcs)
    (ht : ∃ e, resolveTarget ns arc = .error e) :
    (∃ e, to_dot ns nm lb directed strict = .error e) ∧
    (∃ e, to_cluster ns nm lb directed strict = .error e) := by
  constructor
  · have hgrp : ∃ e, dotNodeGroup ns (if directed then "->" else "--") (k, n) =
        .error e := by
      obtain ⟨e1, he1⟩ := mapMExcept_error
        (dotArcLine ns (if directed then "->" else "--") n) n.arcs arc ha
        (dotArcLine_error ns _ n arc ht)
      exact ⟨e1, by simp [dotNodeGroup, he1, Bind.bind, Except.bind]⟩
    obtain ⟨e2, he2⟩ := mapMExcept_error
      (dotNodeGroup ns (if directed then "->" else "--")) ns (k, n) hmem hgrp
    exact ⟨e2, by simp [to_dot, he2, Bind.bind, Except.bind]⟩
  · have hgrp : ∃ e, clusterNodeArcs ns (if directed then "->" else "--") (k, n) =
        .error e := by
      obtain ⟨e1, he1⟩ := mapMExcept_error
        (clusterArcLine ns (if directed then "->" else "--") n) n.arcs arc ha
        (clusterArcLine_error ns _ n arc ht)
      exact ⟨e1, by simp [clusterNodeArcs, he1]⟩
    obtain ⟨e2, he2⟩ := mapMExcept_error
      (clusterNodeArcs ns (if directed then "->" else "--")) ns (k, n) hmem hgrp
    exact ⟨e2, by simp [to_cluster, he2, Bind.bind, Except.bind]⟩

/-- Tables `A` and arc `A.b` whose target `X` names no table at all. -/
def exMissTarget : List (String × Table) :=
  [("A", tagT), ("A.b", [("target", Value.str "X")])]

/-- The node map built from `exMissTarget`: the build succeeds. -/
def exMissTargetNs : List (String × Node) := (buildNodes exMissTarget).1

/-- The dangling-target Arc of `exMissTarget`. -/
def exBadArc : Arc := mkArc "A.b" [("target", Value.str "X")]

/-- The Node `A` of `exMissTargetNs`, with the dangling Arc attached. -/
def exNodeA : Node := (lookupNode exMissTargetNs "A").getD (mkNode "A" [] [])

theorem render_missing_target_raises_witness :
    (∃ e, to_dot exMissTargetNs "model" none true true = .error e) ∧
    (∃ e, to_cluster exMissTargetNs "model" none true true = .error e) :=
  render_missing_target_raises exMissTargetNs "model" none true true
    "A" exNodeA exBadArc (List.Mem.head _) (List.Mem.head _)
    ⟨"KeyError: X", rfl⟩

/-! Section: Claim C9: rendering terminates -/

lemma childrenNames_strict (ns : List (String × Node)) (name c : String)
    (h : c ∈ childrenNames ns name) :
    name.length < c.length ∧ startsWithB c name = true := by
  unfold childrenNames at h
  have hcond := (List.mem_filter.mp h).2
  simp only [Bool.and_eq_true, bne_iff_ne] at hcond
  obtain ⟨hne, hsw⟩ := hcond
  refine ⟨?_, hsw⟩
  have hp : name.data <+: c.data := List.isPrefixOf_iff_prefix.mp hsw
  have hle : name.data.length ≤ c.data.length := hp.length_le
  have hlt : name.data.length ≠ c.data.length := by
    intro heq
    have hdata : name.data = c.data := hp.eq_of_length heq
    have hnc : name = c := congrArg String.mk hdata
    exact hne hnc.symm
  exact lt_of_le_of_ne hle hlt

lemma maxKeyLen_bound (ns : List (String × Node)) (k : String)
    (h : k ∈ ns.map (fun p => p.1)) : k.length ≤ maxKeyLen ns := by
  unfold maxKeyLen
  induction ns with
  | nil => cases h
  | cons hd tl ih =>
    simp only [List.map_cons, List.foldr_cons]
    rcases List.mem_cons.mp h with hh | hh
    · rw [hh]
      exact le_max_left _ _
    · exact le_trans (ih hh) (le_max_right _ _)

lemma childNodes_facts (ns : List (String × Node))
    (hinv : ∀ p ∈ ns, p.2.name = p.1) (name : String) (q : Node)
    (h : q ∈ childNodes ns name) :
    q.name ∈ ns.map (fun p => p.1) ∧ name.length < q.name.length := by
  unfold childNodes at h
  rcases List.mem_filterMap.mp h with ⟨c, hc, hlk⟩
  unfold lookupNode at hlk
  cases hf : ns.find? (fun p => p.1 == c) with
  | none =>
    rw [hf] at hlk
    cases hlk
  | some p =>
    rw [hf] at hlk
    have hq : p.2 = q := by simpa using hlk
    have hpc : p.1 = c := by simpa using List.find?_some hf
    have hpm : p ∈ ns := List.mem_of_find?_eq_some hf
    have hqn : q.name = c := by rw [← hq, hinv p hpm, hpc]
    have hstrict := childrenNames_strict ns name c hc
    refine ⟨?_, ?_⟩
    · rw [hqn, ← hpc]
      exact List.mem_map.mpr ⟨p, hpm, rfl⟩
    · rw [hqn]
      exact hstrict.1

lemma subgraphsFuel_stable (ns : List (String × Node))
    (hinv : ∀ p ∈ ns, p.2.name = p.1) :
    ∀ (fuel f1 f2 : Nat) (parents : List Node),
    f1 ≤ fuel → 1 ≤ f1 → 1 ≤ f2 →
    (∀ p ∈ parents, maxKeyLen ns + 1 - p.name.length ≤ f1 ∧
                    maxKeyLen ns + 1 - p.name.length ≤ f2) →
    subgraphsFuel ns f1 parents = subgraphsFuel ns f2 parents := by
  intro fuel
  induction fuel with
  | zero =>
    intro f1 f2 parents hle h1 h2 _
    omega
  | succ fu ih =>
    intro f1 f2 parents hle h1 h2 hbnd
    obtain ⟨a, rfl⟩ : ∃ a, f1 = a + 1 := ⟨f1 - 1, by omega⟩
    obtain ⟨b, rfl⟩ : ∃ b, f2 = b + 1 := ⟨f2 - 1, by omega⟩
    revert hbnd
    induction parents with
    | nil =>
      intro _
      rfl
    | cons p ps ihp =>
      intro hbnd
      have hbp := hbnd p (by simp)
      simp only [subgraphsFuel, List.flatMap_cons] at ihp ⊢
      have htail : (ps.flatMap fun p =>
          some p :: (if (childNodes ns p.name).isEmpty then []
            else subgraphsFuel ns a (childNodes ns p.name) ++ [none])) =
          ps.flatMap fun p =>
          some p :: (if (childNodes ns p.name).isEmpty then []
            else subgraphsFuel ns b (childNodes ns p.name) ++ [none]) :=
        ihp (fun q hq => hbnd q (List.mem_cons_of_mem _ hq))
      rw [htail]
      congr 1
      by_cases hcs : (childNodes ns p.name).isEmpty
      · simp [hcs]
      · simp only [hcs, Bool.false_eq_true, if_false]
        have hex : ∃ q, q ∈ childNodes ns p.name := by
          cases hcn : childNodes ns p.name with
          | nil => rw [hcn] at hcs; simp at hcs
          | cons q qs => exact ⟨q, List.mem_cons_self _ _⟩
        obtain ⟨q0, hq0⟩ := hex
        have hq0f := childNodes_facts ns hinv p.name q0 hq0
        have hq0len : q0.name.length ≤ maxKeyLen ns := maxKeyLen_bound ns _ hq0f.1
        have hplen : p.name.length < maxKeyLen ns := by omega
        have hrec : subgraphsFuel ns a (childNodes ns p.name) =
            subgraphsFuel ns b (childNodes ns p.name) := by
          refine ih a b (childNodes ns p.name) (by omega) (by omega) (by omega) ?_
          intro q hq
          have hqf := childNodes_facts ns hinv p.name q hq
          have hqlen : q.name.length ≤ maxKeyLen ns := maxKeyLen_bound ns _ hqf.1
          constructor <;> omega
        rw [hrec]

/-- The node map built from the chain document `A`, `A.B`, `A.B.C`. -/
def exChainNs : List (String × Node) := (buildNodes exChain).1

/-- C9: rendering always terminates — every name `children(name)` returns is a
strict string extension of `name` (a longer string having `name` as a raw
prefix), so the generator recursion of `subgraphs` is well-founded: on any node
map whose keys are the node names (as `Model.nodes` produces), the fuelled
traversal is stable at every fuel beyond `maxKeyLen + 1`, i.e. the traversal —
and with it both renderers, which are plain folds over its finite output and
the finite node map — produces a finite, fuel-independent sequence. -/
theorem rendering_terminates (ns : List (String × Node))
    (hinv : ∀ p ∈ ns, p.2.name = p.1) (f : Nat)
    (hf : maxKeyLen ns + 1 ≤ f) :
    (∀ name c, c ∈ childrenNames ns name →
      name.length < c.length ∧ startsWithB c name = true) ∧
    subgraphsFuel ns f (rootsOf ns) = subgraphs ns := by
  constructor
  · intro name c h
    exact childrenNames_strict ns name c h
  · unfold subgraphs
    refine subgraphsFuel_stable ns hinv f f (maxKeyLen ns + 1) (rootsOf ns)
      (le_refl f) (by omega) (by omega) ?_
    intro p _
    constructor <;> omega

theorem rendering_terminates_witness :
    (∀ name c, c ∈ childrenNames exChainNs name →
      name.length < c.length ∧ startsWithB c name = true) ∧
    subgraphsFuel exChainNs 12 (rootsOf exChainNs) = subgraphs exChainNs :=
  rendering_terminates exChainNs (by decide) 12 (by decide)

/-! Section: Claim C10: the cluster traversal re-visits nodes -/

/-- The built Node `A.B.C` of the chain document. -/
def nodeABC : Node := (lookupNode exChainNs "A.B.C").getD (mkNode "A.B.C" [] [])

/-- C10: with node tables `A`, `A.B` and `A.B.C`, the traversal yields the
node `A.B.C` twice — once as a descendant of `A` and once as a descendant of
`A.B`, because `children` returns all descendants and the traversal recurses
into each — and `to_cluster` therefore emits that node's vertex statement
twice. -/
theorem cluster_duplicate_vertex :
    ((subgraphs exChainNs).filterMap (fun o => o.map (fun n => n.name))).count
      "A.B.C" = 2 ∧
    (linesOf (to_cluster exChainNs "model" none true true)).count
      (clusterVertexLine exChainNs nodeABC) = 2 := by
  constructor
  · decide
  · decide
